import Mathlib

/-!
Shallow embedding of the recommendation engine of the CRITiQUE repository
(`recommender.py`): the content-based recommender (TF-IDF over place
metadata), the collaborative recommender (item-item cosine similarity over
a user x place rating matrix) and the hybrid recommender (collaborative
stage, preference stage, popularity fallback).

Modelling conventions:
- a place record carries its optional text fields as `Option String`
  (`none` models a `None` value in the caller-supplied dictionary);
- ratings are rationals (`pivot_table` cells are exact means);
- similarity values live in `ℝ` (`cosine_similarity` / `linear_kernel`);
- the stable Python builtin `sorted(..., reverse=True)` is modelled by a stable
  insertion sort with a greater-or-equal comparator, while pandas
  `sort_values(ascending=False)` is modelled by a stable ascending sort
  followed by `reverse` (pandas reverses the ascending argsort, so tied
  entries come out in reversed index order).
-/

namespace Critique

/-- A place record, as built by `app.py` (the keys id, name, type, tags
and description); the optional fields may hold `None`. -/
structure Place where
  id : Int
  name : String
  type : Option String
  tags : Option String
  description : Option String
deriving DecidableEq, Repr

/-- A rating record (the keys user_id, place_id and rating). -/
structure Review where
  user_id : String
  place_id : Int
  rating : ℚ
deriving DecidableEq, Repr

/-! ### Sorted distinct keys (pandas index/column construction) -/

/-- Distinct values in ascending order: `pivot_table` and `groupby` sort
their index and columns ascending. -/
def sortedKeys {α : Type} [DecidableEq α] [LinearOrder α] (l : List α) : List α :=
  List.insertionSort (· ≤ ·) l.dedup

/-- Row index of the user-item matrix: distinct user ids, ascending. -/
def userIds (rs : List Review) : List String :=
  sortedKeys (rs.map (·.user_id))

/-- Column index of the user-item matrix: distinct place ids, ascending. -/
def placeIds (rs : List Review) : List Int :=
  sortedKeys (rs.map (·.place_id))

/-! ### The user-item matrix (`pivot_table`, mean aggregation, NaN holes) -/

/-- All rating values a user gave one place (in catalog order). -/
def cellRatings (rs : List Review) (u : String) (p : Int) : List ℚ :=
  (rs.filter (fun r => r.user_id = u ∧ r.place_id = p)).map (·.rating)

/-- A cell of `user_item_matrix`: the mean rating, or `none` (NaN). -/
def cellMean (rs : List Review) (u : String) (p : Int) : Option ℚ :=
  if cellRatings rs u p = [] then none
  else some ((cellRatings rs u p).sum / (cellRatings rs u p).length)

/-- A cell of `matrix_filled` (`fillna(0)`). -/
def cellFilled (rs : List Review) (u : String) (p : Int) : ℚ :=
  (cellMean rs u p).getD 0

/-- The column of place `p`: its rating vector over all users (the rows of
`matrix_filled.T`). -/
def itemVec (rs : List Review) (p : Int) : List ℚ :=
  (userIds rs).map (fun u => cellFilled rs u p)

/-- Dot product of two rating vectors. -/
def dotQ (a b : List ℚ) : ℚ :=
  (List.zipWith (· * ·) a b).sum

/-- The norm factor used by the sklearn `normalize` step: zero vectors keep norm 1
so that they stay zero instead of dividing by zero. -/
noncomputable def sqrtOr1 (q : ℚ) : ℝ :=
  if q = 0 then 1 else Real.sqrt q

/-- Entry of `item_similarity_df`: cosine similarity of the rating columns
of places `p` and `q` (`cosine_similarity(matrix_filled.T)`). -/
noncomputable def itemSim (rs : List Review) (p q : Int) : ℝ :=
  ((dotQ (itemVec rs p) (itemVec rs q) : ℚ) : ℝ) /
    (sqrtOr1 (dotQ (itemVec rs p) (itemVec rs p)) *
      sqrtOr1 (dotQ (itemVec rs q) (itemVec rs q)))

/-! ### pandas Series operations -/

/-- pandas `Series.add` with `fill_value=0`: merge two key-sorted
association lists, adding values on common keys. -/
def seriesAdd {β : Type} [Add β] : List (Int × β) → List (Int × β) → List (Int × β)
  | [], ys => ys
  | x :: xs, [] => x :: xs
  | x :: xs, y :: ys =>
    if x.1 < y.1 then x :: seriesAdd xs (y :: ys)
    else if y.1 < x.1 then y :: seriesAdd (x :: xs) ys
    else (x.1, x.2 + y.2) :: seriesAdd xs ys
termination_by xs ys => xs.length + ys.length

/-- Stable descending sort by value: the Python builtin
`sorted(..., reverse=True)` keeps tied entries in their original order. -/
def pySortDesc {α β : Type} [LinearOrder β] (key : α → β) (l : List α) : List α :=
  List.insertionSort (fun a b => key b ≤ key a) l

/-- pandas `Series.sort_values(ascending=False)`: an ascending argsort
whose result is reversed. The model uses a stable ascending sort, which is
exact for the small arrays the concrete theorems evaluate (numpy argsort
falls back to insertion sort there); for longer tied runs the program has
no specified tie order, so no universal theorem may rely on the tie order
of this model. -/
def pandasSortDesc {α β : Type} [LinearOrder β] (key : α → β) (l : List α) : List α :=
  (List.insertionSort (fun a b => key a ≤ key b) l).reverse

/-! ### `CollaborativeRecommender` -/

/-- The series `user_ratings[user_ratings > 0]`: the row of the user in
the matrix, restricted to cells that exist and are positive, in column
order. -/
def userPosRatings (rs : List Review) (u : String) : List (Int × ℚ) :=
  (placeIds rs).filterMap (fun p =>
    match cellMean rs u p with
    | none => none
    | some v => if 0 < v then some (p, v) else none)

/-- One step of the accumulation loop: the column of the rated place in
`item_similarity_df`, scaled by `rating / 5.0`. -/
noncomputable def simColScaled (rs : List Review) (pr : Int × ℚ) : List (Int × ℝ) :=
  (placeIds rs).map (fun q => (q, itemSim rs q pr.1 * ((pr.2 : ℝ) / 5)))

/-- The accumulated `similar_scores` series built by the loop over the
rated places of the user. -/
noncomputable def accumScores (rs : List Review) (rated : List (Int × ℚ)) :
    List (Int × ℝ) :=
  rated.foldl
    (fun acc pr =>
      if pr.1 ∈ placeIds rs then seriesAdd acc (simColScaled rs pr) else acc)
    []

/-- Embedding of `CollaborativeRecommender.recommend_for_user`. -/
noncomputable def recommendForUser (rs : List Review) (u : String) (limit : Nat) :
    List Int :=
  if rs = [] then []
  else if u ∉ userIds rs then []
  else if userPosRatings rs u = [] then []
  else
    ((pandasSortDesc Prod.snd
      ((accumScores rs (userPosRatings rs u)).filter
        (fun kv => kv.1 ∉ (userPosRatings rs u).map Prod.fst))).take limit).map
      Prod.fst

/-- Embedding of `CollaborativeRecommender.get_similar_items`. -/
noncomputable def getSimilarItems (rs : List Review) (p : Int) (limit : Nat) :
    List Int :=
  if rs = [] then []
  else if p ∉ placeIds rs then []
  else
    (((pandasSortDesc Prod.snd
      ((placeIds rs).map (fun q => (q, itemSim rs q p)))).drop 1).take
        limit).map Prod.fst

/-! ### `ContentRecommender`: TF-IDF over the metadata soup -/

/-- The metadata soup of a place: `fillna` with empty strings followed by
the concatenation `name + " " + type + " " + tags + " " + description`. -/
def soup (pl : Place) : String :=
  pl.name ++ " " ++ pl.type.getD "" ++ " " ++ pl.tags.getD "" ++ " " ++
    pl.description.getD ""

/-- A word character for the sklearn token pattern `\w\w+`. -/
def isWordChar (c : Char) : Bool :=
  c.isAlphanum || c = '_'

/-- sklearn tokenization: lowercase, then keep maximal word-character runs
of length at least two. -/
def tokenize (s : String) : List String :=
  (((s.data.map Char.toLower).splitOnP (fun c => !isWordChar c)).filter
    (fun t => 2 ≤ t.length)).map (fun t => String.mk t)

/-- The tokens of the document of one place, stop words removed. -/
def docTokens (stop : List String) (pl : Place) : List String :=
  (tokenize (soup pl)).filter (fun t => t ∉ stop)

/-- All documents of the catalog, in catalog order. -/
def corpus (stop : List String) (ps : List Place) : List (List String) :=
  ps.map (docTokens stop)

/-- The fitted vocabulary: distinct surviving terms, sorted. -/
def vocab (stop : List String) (ps : List Place) : List String :=
  sortedKeys (corpus stop ps).flatten

/-- Document frequency of a term. -/
def docFreq (stop : List String) (ps : List Place) (t : String) : Nat :=
  ((corpus stop ps).filter (fun d => t ∈ d)).length

/-- Occurrences of a term in one document. -/
def termCount (d : List String) (t : String) : Nat :=
  (d.filter (fun x => x = t)).length

/-- Smoothed inverse document frequency,
`ln((1 + n) / (1 + df)) + 1` (sklearn default `smooth_idf=True`). -/
noncomputable def idf (stop : List String) (ps : List Place) (t : String) : ℝ :=
  Real.log ((1 + ps.length) / (1 + docFreq stop ps t)) + 1

/-- Unnormalized TF-IDF vector of one document over the vocabulary. -/
noncomputable def tfidfRaw (stop : List String) (ps : List Place)
    (d : List String) : List ℝ :=
  (vocab stop ps).map (fun t => (termCount d t : ℝ) * idf stop ps t)

/-- Sum of squares of a vector. -/
noncomputable def sumSq (v : List ℝ) : ℝ :=
  (v.map (fun x => x * x)).sum

/-- sklearn `normalize`: l2-normalize, leaving zero vectors unchanged. -/
noncomputable def l2normalize (v : List ℝ) : List ℝ :=
  if sumSq v = 0 then v else v.map (fun x => x / Real.sqrt (sumSq v))

/-- A row of `tfidf_matrix`. -/
noncomputable def tfidfRow (stop : List String) (ps : List Place)
    (d : List String) : List ℝ :=
  l2normalize (tfidfRaw stop ps d)

/-- Dot product over `ℝ`. -/
noncomputable def dotR (a b : List ℝ) : ℝ :=
  (List.zipWith (· * ·) a b).sum

/-- Entry `(i, j)` of `cosine_sim = linear_kernel(tfidf, tfidf)`. -/
noncomputable def contentSim (stop : List String) (ps : List Place)
    (i j : Nat) : ℝ :=
  dotR (tfidfRow stop ps ((corpus stop ps).getD i []))
    (tfidfRow stop ps ((corpus stop ps).getD j []))

/-- Construction of `ContentRecommender` (its `__init__`): vector
preparation is skipped on an empty frame, and a TF-IDF fit over an empty
vocabulary raises the sklearn `ValueError`, modelled as `Except.error`. -/
def contentPrepare (stop : List String) (ps : List Place) : Except String Unit :=
  if ps = [] then .ok ()
  else if vocab stop ps = [] then .error "empty vocabulary"
  else .ok ()

/-- Propagation of a construction failure into a query result. -/
def afterPrepare {α : Type} (e : Except String Unit) (v : α) : Except String α :=
  match e with
  | .error s => .error s
  | .ok _ => .ok v


/-- Embedding of `ContentRecommender` construction followed by
`recommend(place_id, limit)`. After construction, the empty-frame and
unknown-id guards return an empty list; otherwise the similarity row of
the place is sorted descending with the stable Python `sorted`, the first
entry is skipped (`sim_scores[1:limit+1]`) and the selected rows are
mapped back to place ids. -/
noncomputable def contentRecommend (stop : List String) (ps : List Place)
    (pid : Int) (limit : Nat) : Except String (List Int) :=
  afterPrepare (contentPrepare stop ps)
    (if ps = [] ∨ pid ∉ ps.map (·.id) then []
     else
      (((pySortDesc Prod.snd ((List.range ps.length).map
        (fun j => (j, contentSim stop ps ((ps.map (·.id)).indexOf pid) j)))).drop
          1).take limit).map (fun ij => (ps.map (·.id)).getD ij.1 0))

/-! ### `HybridRecommender` -/

/-- Conversion `str(x[field])` on the raw places frame: a missing value
prints as the string None. -/
def strOfField : Option String → String
  | some s => s
  | none => "None"

/-- Lowercased character list of a string (Python `.lower()`). -/
def lowerChars (s : String) : List Char :=
  s.data.map Char.toLower

/-- Does `needle` start `hay`? -/
def startsWith : List Char → List Char → Bool
  | [], _ => true
  | _ :: _, [] => false
  | a :: as, b :: bs => a = b && startsWith as bs

/-- The Python substring test `needle in hay`. -/
def containsSub (needle : List Char) : List Char → Bool
  | [] => needle = []
  | c :: rest => startsWith needle (c :: rest) || containsSub needle rest

/-- The stage-2 mask: some preference keyword is a case-insensitive
substring of the type or the tags of the place. -/
def placeHasAnyPref (prefs : List String) (pl : Place) : Bool :=
  prefs.any (fun kw =>
    containsSub (lowerChars kw) (lowerChars (strOfField pl.type)) ||
      containsSub (lowerChars kw) (lowerChars (strOfField pl.tags)))

/-- Number of rating records for a place (`groupby` by place id, then `size`). -/
def ratingCount (rs : List Review) (p : Int) : Nat :=
  (rs.filter (fun r => r.place_id = p)).length

/-- The `popular_items` ranking, computed at construction: place ids
sorted by rating count via `sort_values(ascending=False)`. -/
def popularItems (rs : List Review) : List Int :=
  if rs = [] then []
  else (pandasSortDesc Prod.snd
    ((placeIds rs).map (fun p => (p, ratingCount rs p)))).map Prod.fst

/-- Stage 1: the collaborative results (`recs.extend(collab_recs)`). -/
noncomputable def hybridStage1 (rs : List Review) (u : String) (limit : Nat) :
    List Int :=
  recommendForUser rs u limit

/-- The ids of catalog places matching some preference, in catalog order. -/
def prefMatchIds (prefs : List String) (ps : List Place) : List Int :=
  (ps.filter (placeHasAnyPref prefs)).map (·.id)

/-- Stage 2: if stage 1 fell short of `limit` and preferences were given,
append matching, not yet accumulated places in catalog order. -/
def hybridStage2 (ps : List Place) (prefs : List String) (recs1 : List Int)
    (limit : Nat) : List Int :=
  if recs1.length < limit ∧ prefs ≠ [] then
    if ps = [] then recs1
    else recs1 ++ (prefMatchIds prefs ps).filter (fun i => i ∉ recs1)
  else recs1

/-- The popularity loop: append unseen popular places, stopping as soon as
`limit` is reached. -/
def fillLoop (limit : Nat) : List Int → List Int → List Int
  | recs, [] => recs
  | recs, p :: rest =>
    if p ∈ recs then fillLoop limit recs rest
    else if limit ≤ (recs ++ [p]).length then recs ++ [p]
    else fillLoop limit (recs ++ [p]) rest

/-- Stage 3: the popularity fallback, entered only below `limit`. -/
def hybridStage3 (rs : List Review) (recs : List Int) (limit : Nat) : List Int :=
  if recs.length < limit then fillLoop limit recs (popularItems rs) else recs

/-- Embedding of `HybridRecommender.recommend` (a `user_preferences` of
`None` is modelled by the empty preference list, equally falsy). -/
noncomputable def hybridRecommend (ps : List Place) (rs : List Review)
    (u : String) (prefs : List String) (limit : Nat) : List Int :=
  (hybridStage3 rs (hybridStage2 ps prefs (hybridStage1 rs u limit) limit)
    limit).take limit

/-! ### Characterization and spec-side definitions

The definitions below do not translate further source code: they restate,
in closed form, quantities the theorems compare the embedded code
against. -/

/-- The accumulated score of the claim: for each positively rated place,
the item-item similarity to it, scaled by that rating over five, summed
additively over all rated places. -/
noncomputable def scoreOf (rs : List Review) (rated : List (Int × ℚ)) (q : Int) : ℝ :=
  (rated.map (fun pr => itemSim rs q pr.1 * ((pr.2 : ℝ) / 5))).sum

/-- The candidate places of the collaborative recommender: all matrix
columns except the places the user positively rated. -/
def collabCandidates (rs : List Review) (u : String) : List Int :=
  (placeIds rs).filter (fun q => q ∉ (userPosRatings rs u).map Prod.fst)

/-- Rank `c` by `score` with the pandas descending sort and keep the top
`n` entries. -/
def rankedTake {κ β : Type} [LinearOrder β] [DecidableEq κ] (score : κ → β)
    (n : Nat) (c : List κ) : List κ :=
  ((pandasSortDesc Prod.snd (c.map (fun q => (q, score q)))).take n).map Prod.fst

/-- Distinct values keeping the FIRST occurrence of each, in encounter
order. -/
def firstEncounterIds : List Int → List Int
  | [] => []
  | x :: xs => x :: (firstEncounterIds xs).filter (fun y => y ≠ x)

/-- Modelled from the spec: popularity ranked by raw rating count
descending with ties broken by first-encountered order in the rating
catalog, i.e. a stable descending sort of the distinct place ids taken in
first-encounter order. Used only to compare the spec wording with
`popularItems`. -/
def popularItemsSpecOrder (rs : List Review) : List Int :=
  pySortDesc (fun p => ratingCount rs p) (firstEncounterIds (rs.map (·.place_id)))

/-- Substring occurrence, stated by decomposition. -/
def isSubstring (n h : List Char) : Prop :=
  ∃ s t, h = s ++ n ++ t

/-- The preference predicate in the words of the spec: some preference
keyword occurs case-insensitively in the type or the tags of the place. -/
def specPrefMatch (prefs : List String) (pl : Place) : Prop :=
  ∃ kw ∈ prefs,
    isSubstring (lowerChars kw) (lowerChars (pl.type.getD "")) ∨
      isSubstring (lowerChars kw) (lowerChars (pl.tags.getD ""))

/-- Replacement of missing optional fields by empty strings. -/
def fillPlace (pl : Place) : Place :=
  ⟨pl.id, pl.name, some (pl.type.getD ""), some (pl.tags.getD ""),
    some (pl.description.getD "")⟩

/-! ## Structural lemmas about the sorting primitives -/

theorem afterPrepare_ok {α : Type} (v : α) :
    afterPrepare (Except.ok ()) v = .ok v :=
  rfl

theorem pandasSortDesc_perm {α β : Type} [LinearOrder β] (key : α → β)
    (l : List α) : (pandasSortDesc key l).Perm l :=
  (List.reverse_perm _).trans (List.perm_insertionSort _ l)

theorem mem_pandasSortDesc {α β : Type} [LinearOrder β] {key : α → β}
    {l : List α} {x : α} : x ∈ pandasSortDesc key l ↔ x ∈ l :=
  (pandasSortDesc_perm key l).mem_iff

theorem pandasSortDesc_pairwise {α β : Type} [LinearOrder β] (key : α → β)
    (l : List α) :
    (pandasSortDesc key l).Pairwise (fun a b => key b ≤ key a) := by
  haveI h1 : IsTotal α (fun a b => key a ≤ key b) :=
    ⟨fun a b => le_total (key a) (key b)⟩
  haveI h2 : IsTrans α (fun a b => key a ≤ key b) :=
    ⟨fun a b c hab hbc => le_trans hab hbc⟩
  exact List.pairwise_reverse.mpr (List.sorted_insertionSort _ l)

theorem pySortDesc_perm {α β : Type} [LinearOrder β] (key : α → β)
    (l : List α) : (pySortDesc key l).Perm l :=
  List.perm_insertionSort _ l

theorem pySortDesc_pairwise {α β : Type} [LinearOrder β] (key : α → β)
    (l : List α) :
    (pySortDesc key l).Pairwise (fun a b => key b ≤ key a) := by
  haveI h1 : IsTotal α (fun a b => key b ≤ key a) :=
    ⟨fun a b => le_total (key b) (key a)⟩
  haveI h2 : IsTrans α (fun a b => key b ≤ key a) :=
    ⟨fun a b c hab hbc => le_trans hbc hab⟩
  exact List.sorted_insertionSort _ l

theorem pairwise_take_drop {α : Type} {r : α → α → Prop} {l : List α}
    (h : l.Pairwise r) (n : Nat) :
    ∀ x ∈ l.take n, ∀ y ∈ l.drop n, r x y := by
  have h2 : (l.take n ++ l.drop n).Pairwise r := by
    rw [List.take_append_drop]
    exact h
  exact (List.pairwise_append.mp h2).2.2

theorem sortedKeys_nodup {α : Type} [DecidableEq α] [LinearOrder α]
    (l : List α) : (sortedKeys l).Nodup :=
  (List.perm_insertionSort _ _).nodup_iff.mpr (List.nodup_dedup l)

theorem mem_sortedKeys {α : Type} [DecidableEq α] [LinearOrder α]
    {l : List α} {x : α} : x ∈ sortedKeys l ↔ x ∈ l :=
  ((List.perm_insertionSort _ _).mem_iff).trans List.mem_dedup

theorem sortedKeys_sorted {α : Type} [DecidableEq α] [LinearOrder α]
    (l : List α) : (sortedKeys l).Pairwise (· ≤ ·) :=
  List.sorted_insertionSort _ _

/-! ## Lemmas about the accumulation loop -/

theorem seriesAdd_map_same {γ : Type} [Add γ] (ks : List Int) (f g : Int → γ) :
    seriesAdd (ks.map (fun k => (k, f k))) (ks.map (fun k => (k, g k))) =
      ks.map (fun k => (k, f k + g k)) := by
  induction ks with
  | nil => simp [seriesAdd]
  | cons k ks ih => simp [seriesAdd, ih]

theorem userPosRatings_mem_placeIds {rs : List Review} {u : String}
    {pr : Int × ℚ} (h : pr ∈ userPosRatings rs u) : pr.1 ∈ placeIds rs := by
  rcases List.mem_filterMap.mp h with ⟨p, hp, he⟩
  split at he
  · exact Option.noConfusion he
  · split_ifs at he
    injection he with he2
    subst he2
    exact hp

theorem accumScores_loop (rs : List Review) (rated : List (Int × ℚ))
    (h : ∀ pr ∈ rated, pr.1 ∈ placeIds rs) (f : Int → ℝ) :
    rated.foldl
      (fun acc pr =>
        if pr.1 ∈ placeIds rs then seriesAdd acc (simColScaled rs pr) else acc)
      ((placeIds rs).map (fun q => (q, f q))) =
      (placeIds rs).map (fun q => (q, f q + scoreOf rs rated q)) := by
  induction rated generalizing f with
  | nil => simp [scoreOf]
  | cons pr rest ih =>
    rw [List.foldl_cons, if_pos (h pr (List.mem_cons_self pr rest))]
    rw [show simColScaled rs pr =
      (placeIds rs).map (fun q => (q, itemSim rs q pr.1 * ((pr.2 : ℝ) / 5)))
      from rfl]
    rw [seriesAdd_map_same]
    rw [ih (fun pr' h' => h pr' (List.mem_cons_of_mem _ h'))]
    simp [scoreOf, add_assoc]

theorem accumScores_eq (rs : List Review) (rated : List (Int × ℚ))
    (h : ∀ pr ∈ rated, pr.1 ∈ placeIds rs) (hne : rated ≠ []) :
    accumScores rs rated = (placeIds rs).map (fun q => (q, scoreOf rs rated q)) := by
  cases rated with
  | nil => exact absurd rfl hne
  | cons pr rest =>
    unfold accumScores
    rw [List.foldl_cons, if_pos (h pr (List.mem_cons_self pr rest))]
    have h0 : seriesAdd ([] : List (Int × ℝ)) (simColScaled rs pr) =
        simColScaled rs pr := by
      simp [seriesAdd]
    rw [h0]
    rw [show simColScaled rs pr =
      (placeIds rs).map (fun q => (q, itemSim rs q pr.1 * ((pr.2 : ℝ) / 5)))
      from rfl]
    rw [accumScores_loop rs rest (fun pr' h' => h pr' (List.mem_cons_of_mem _ h'))]
    simp [scoreOf]

/-! ## Lemmas about ranked selection -/

theorem mem_sorted_pairs {κ β : Type} [LinearOrder β] [DecidableEq κ]
    {score : κ → β} {c : List κ} {n : Nat} {x : κ × β}
    (hx : x ∈ (pandasSortDesc Prod.snd (c.map (fun q => (q, score q)))).take n) :
    x.1 ∈ c ∧ x.2 = score x.1 := by
  have h1 : x ∈ c.map (fun q => (q, score q)) :=
    mem_pandasSortDesc.mp ((List.take_sublist n _).subset hx)
  rcases List.mem_map.mp h1 with ⟨q, hq, rfl⟩
  exact ⟨hq, rfl⟩

theorem rankedTake_length {κ β : Type} [LinearOrder β] [DecidableEq κ]
    (score : κ → β) (n : Nat) (c : List κ) :
    (rankedTake score n c).length = min n c.length := by
  unfold rankedTake
  rw [List.length_map, List.length_take, (pandasSortDesc_perm _ _).length_eq,
    List.length_map]

theorem rankedTake_subset {κ β : Type} [LinearOrder β] [DecidableEq κ]
    {score : κ → β} {n : Nat} {c : List κ} {a : κ}
    (ha : a ∈ rankedTake score n c) : a ∈ c := by
  unfold rankedTake at ha
  rcases List.mem_map.mp ha with ⟨x, hx, rfl⟩
  exact (mem_sorted_pairs hx).1

theorem rankedTake_sorted {κ β : Type} [LinearOrder β] [DecidableEq κ]
    (score : κ → β) (n : Nat) (c : List κ) :
    (rankedTake score n c).Pairwise (fun a b => score b ≤ score a) := by
  unfold rankedTake
  rw [List.pairwise_map]
  have hp : ((pandasSortDesc Prod.snd (c.map (fun q => (q, score q)))).take
      n).Pairwise (fun a b => b.2 ≤ a.2) :=
    List.Pairwise.sublist (List.take_sublist n _) (pandasSortDesc_pairwise _ _)
  refine hp.imp_of_mem ?_
  intro a b hma hmb hr
  have ha := mem_sorted_pairs hma
  have hb := mem_sorted_pairs hmb
  rw [ha.2, hb.2] at hr
  exact hr

theorem rankedTake_top {κ β : Type} [LinearOrder β] [DecidableEq κ]
    {score : κ → β} {n : Nat} {c : List κ} {a b : κ}
    (ha : a ∈ rankedTake score n c) (hb : b ∈ c)
    (hbn : b ∉ rankedTake score n c) : score b ≤ score a := by
  have hbS : (b, score b) ∈ pandasSortDesc Prod.snd (c.map (fun q => (q, score q))) :=
    mem_pandasSortDesc.mpr (List.mem_map_of_mem _ hb)
  have hbTake : (b, score b) ∉
      (pandasSortDesc Prod.snd (c.map (fun q => (q, score q)))).take n := by
    intro hmem
    exact hbn (List.mem_map_of_mem Prod.fst hmem)
  have hbDrop : (b, score b) ∈
      (pandasSortDesc Prod.snd (c.map (fun q => (q, score q)))).drop n := by
    have hsplit := List.take_append_drop n
      (pandasSortDesc Prod.snd (c.map (fun q => (q, score q))))
    have hmem : (b, score b) ∈
        (pandasSortDesc Prod.snd (c.map (fun q => (q, score q)))).take n ++
          (pandasSortDesc Prod.snd (c.map (fun q => (q, score q)))).drop n := by
      rw [hsplit]
      exact hbS
    rcases List.mem_append.mp hmem with h1 | h2
    · exact absurd h1 hbTake
    · exact h2
  rcases List.mem_map.mp ha with ⟨x, hxTake, rfl⟩
  have hx := mem_sorted_pairs hxTake
  have hrel := pairwise_take_drop
    (pandasSortDesc_pairwise Prod.snd (c.map (fun q => (q, score q)))) n x
    hxTake (b, score b) hbDrop
  rw [hx.2] at hrel
  exact hrel

theorem rankedTake_nodup {κ β : Type} [LinearOrder β] [DecidableEq κ]
    (score : κ → β) (n : Nat) {c : List κ} (hc : c.Nodup) :
    (rankedTake score n c).Nodup := by
  unfold rankedTake
  have hS : ((pandasSortDesc Prod.snd (c.map (fun q => (q, score q)))).map
      Prod.fst).Nodup := by
    apply ((pandasSortDesc_perm _ _).map Prod.fst).nodup_iff.mpr
    rw [List.map_map]
    rw [show (Prod.fst ∘ fun q : κ => (q, score q)) = id from rfl, List.map_id]
    exact hc
  exact List.Nodup.sublist ((List.take_sublist n _).map Prod.fst) hS

/-! ## Characterization of the collaborative recommender -/

theorem recommendForUser_eq (rs : List Review) (u : String) (limit : Nat)
    (hu : u ∈ userIds rs) (hr : userPosRatings rs u ≠ []) :
    recommendForUser rs u limit =
      rankedTake (scoreOf rs (userPosRatings rs u)) limit
        (collabCandidates rs u) := by
  have hrs : rs ≠ [] := by
    rintro rfl
    simp [userIds, sortedKeys] at hu
  unfold recommendForUser
  rw [if_neg hrs, if_neg (not_not_intro hu), if_neg hr]
  rw [accumScores_eq rs _ (fun pr h' => userPosRatings_mem_placeIds h') hr]
  rw [List.filter_map]
  rfl

theorem recommendForUser_eq_nil_of {rs : List Review} {u : String}
    (limit : Nat)
    (h : rs = [] ∨ u ∉ userIds rs ∨ userPosRatings rs u = []) :
    recommendForUser rs u limit = [] := by
  unfold recommendForUser
  by_cases h1 : rs = []
  · rw [if_pos h1]
  · rw [if_neg h1]
    by_cases h2 : u ∉ userIds rs
    · rw [if_pos h2]
    · rw [if_neg h2]
      rcases h with h | h | h
      · exact absurd h h1
      · exact absurd h h2
      · rw [if_pos h]

theorem recommendForUser_nodup (rs : List Review) (u : String) (limit : Nat) :
    (recommendForUser rs u limit).Nodup := by
  by_cases h1 : rs = []
  · rw [recommendForUser_eq_nil_of limit (Or.inl h1)]
    exact List.nodup_nil
  by_cases h2 : u ∉ userIds rs
  · rw [recommendForUser_eq_nil_of limit (Or.inr (Or.inl h2))]
    exact List.nodup_nil
  by_cases h3 : userPosRatings rs u = []
  · rw [recommendForUser_eq_nil_of limit (Or.inr (Or.inr h3))]
    exact List.nodup_nil
  · rw [recommendForUser_eq rs u limit (not_not.mp h2) h3]
    exact rankedTake_nodup _ _ (List.Nodup.filter _ (sortedKeys_nodup _))

theorem recommendForUser_subset (rs : List Review) (u : String) (limit : Nat) :
    ∀ p ∈ recommendForUser rs u limit, p ∈ placeIds rs := by
  intro p hp
  by_cases h1 : rs = []
  · rw [recommendForUser_eq_nil_of limit (Or.inl h1)] at hp
    exact absurd hp (List.not_mem_nil p)
  by_cases h2 : u ∉ userIds rs
  · rw [recommendForUser_eq_nil_of limit (Or.inr (Or.inl h2))] at hp
    exact absurd hp (List.not_mem_nil p)
  by_cases h3 : userPosRatings rs u = []
  · rw [recommendForUser_eq_nil_of limit (Or.inr (Or.inr h3))] at hp
    exact absurd hp (List.not_mem_nil p)
  · rw [recommendForUser_eq rs u limit (not_not.mp h2) h3] at hp
    exact (List.mem_filter.mp (rankedTake_subset hp)).1

theorem mem_userPosRatings_of_rated {rs : List Review} {u : String} {p : Int}
    (hpos : ∀ r ∈ rs, 0 < r.rating)
    (hex : ∃ r ∈ rs, r.user_id = u ∧ r.place_id = p) :
    p ∈ (userPosRatings rs u).map Prod.fst := by
  rcases hex with ⟨r, hrmem, hru, hrp⟩
  have hp : p ∈ placeIds rs :=
    mem_sortedKeys.mpr (List.mem_map.mpr ⟨r, hrmem, hrp⟩)
  have hne : cellRatings rs u p ≠ [] := by
    unfold cellRatings
    apply List.ne_nil_of_mem
    apply List.mem_map_of_mem
    apply List.mem_filter.mpr
    exact ⟨hrmem, by simp [hru, hrp]⟩
  have hsum : 0 < (cellRatings rs u p).sum := by
    apply List.sum_pos _ _ hne
    intro x hx
    rcases List.mem_map.mp hx with ⟨r', hr', rfl⟩
    exact hpos r' ((List.filter_sublist rs).subset hr')
  have hlen : (0 : ℚ) < (cellRatings rs u p).length := by
    exact_mod_cast List.length_pos.mpr hne
  have hdiv : 0 < (cellRatings rs u p).sum / (cellRatings rs u p).length :=
    div_pos hsum hlen
  apply List.mem_map.mpr
  refine ⟨(p, (cellRatings rs u p).sum / (cellRatings rs u p).length), ?_, rfl⟩
  apply List.mem_filterMap.mpr
  refine ⟨p, hp, ?_⟩
  have hcm : cellMean rs u p =
      some ((cellRatings rs u p).sum / (cellRatings rs u p).length) := by
    unfold cellMean
    rw [if_neg hne]
  rw [hcm]
  show (if 0 < (cellRatings rs u p).sum / ((cellRatings rs u p).length : ℚ)
      then some (p, (cellRatings rs u p).sum / ((cellRatings rs u p).length : ℚ))
      else none) = _
  rw [if_pos hdiv]

/-- C2: for a user present in the rating matrix with at least one positive
rating, the collaborative recommender returns the top `limit` candidate
places ranked descending by the accumulated score that adds, for each
place the user positively rated, the item-item cosine similarity to it
times that rating over five (a sum over all rated places, not an
average). -/
theorem collab_recommend_ranks_by_weighted_sum (rs : List Review)
    (u : String) (limit : Nat) (hu : u ∈ userIds rs)
    (hr : userPosRatings rs u ≠ []) :
    recommendForUser rs u limit =
      rankedTake (scoreOf rs (userPosRatings rs u)) limit
        (collabCandidates rs u) ∧
    (recommendForUser rs u limit).Pairwise
      (fun a b => scoreOf rs (userPosRatings rs u) b ≤
        scoreOf rs (userPosRatings rs u) a) ∧
    (recommendForUser rs u limit).length =
      min limit (collabCandidates rs u).length ∧
    (∀ a ∈ recommendForUser rs u limit, a ∈ collabCandidates rs u) ∧
    (∀ a ∈ recommendForUser rs u limit, ∀ b ∈ collabCandidates rs u,
      b ∉ recommendForUser rs u limit →
        scoreOf rs (userPosRatings rs u) b ≤
          scoreOf rs (userPosRatings rs u) a) := by
  have he := recommendForUser_eq rs u limit hu hr
  refine ⟨he, ?_, ?_, ?_, ?_⟩
  · rw [he]
    exact rankedTake_sorted _ _ _
  · rw [he]
    exact rankedTake_length _ _ _
  · intro a ha
    rw [he] at ha
    exact rankedTake_subset ha
  · intro a ha b hb hbn
    rw [he] at ha hbn
    exact rankedTake_top ha hb hbn

/-- Witness for C2 at a concrete one-review catalog. -/
theorem collab_recommend_ranks_by_weighted_sum_witness :
    "u1" ∈ userIds [⟨"u1", 1, 5⟩] ∧ userPosRatings [⟨"u1", 1, 5⟩] "u1" ≠ [] ∧
    (recommendForUser [⟨"u1", 1, 5⟩] "u1" 3 =
      rankedTake (scoreOf [⟨"u1", 1, 5⟩] (userPosRatings [⟨"u1", 1, 5⟩] "u1")) 3
        (collabCandidates [⟨"u1", 1, 5⟩] "u1")) := by
  have h1 : "u1" ∈ userIds [⟨"u1", 1, 5⟩] := by decide
  have h2 : userPosRatings [⟨"u1", 1, 5⟩] "u1" ≠ [] := by
    simp [userPosRatings, placeIds, sortedKeys, cellMean, cellRatings]
  exact ⟨h1, h2,
    (collab_recommend_ranks_by_weighted_sum [⟨"u1", 1, 5⟩] "u1" 3 h1 h2).1⟩

/-- C3: the collaborative recommender never returns a place the user has
already rated (with the positive ratings of the data model). -/
theorem collab_never_returns_rated (rs : List Review) (u : String)
    (limit : Nat) (hpos : ∀ r ∈ rs, 0 < r.rating) :
    ∀ p : Int, (∃ r ∈ rs, r.user_id = u ∧ r.place_id = p) →
      p ∉ recommendForUser rs u limit := by
  intro p hex hmem
  by_cases h1 : rs = []
  · rw [recommendForUser_eq_nil_of limit (Or.inl h1)] at hmem
    exact List.not_mem_nil p hmem
  by_cases h2 : u ∉ userIds rs
  · rw [recommendForUser_eq_nil_of limit (Or.inr (Or.inl h2))] at hmem
    exact List.not_mem_nil p hmem
  by_cases h3 : userPosRatings rs u = []
  · rw [recommendForUser_eq_nil_of limit (Or.inr (Or.inr h3))] at hmem
    exact List.not_mem_nil p hmem
  rw [recommendForUser_eq rs u limit (not_not.mp h2) h3] at hmem
  have hc := rankedTake_subset hmem
  have hd := (List.mem_filter.mp hc).2
  exact (of_decide_eq_true hd) (mem_userPosRatings_of_rated hpos hex)

/-- Witness for C3 at a concrete one-review catalog. -/
theorem collab_never_returns_rated_witness :
    (∀ r ∈ [(⟨"u1", 1, 5⟩ : Review)], 0 < r.rating) ∧
    (∃ r ∈ [(⟨"u1", 1, 5⟩ : Review)], r.user_id = "u1" ∧ r.place_id = 1) ∧
    1 ∉ recommendForUser [⟨"u1", 1, 5⟩] "u1" 3 := by
  have h1 : ∀ r ∈ [(⟨"u1", 1, 5⟩ : Review)], 0 < r.rating := by decide
  have h2 : ∃ r ∈ [(⟨"u1", 1, 5⟩ : Review)], r.user_id = "u1" ∧ r.place_id = 1 := by
    decide
  exact ⟨h1, h2, collab_never_returns_rated [⟨"u1", 1, 5⟩] "u1" 3 h1 1 h2⟩

/-! ## Behaviour of `get_similar_items` on tied similarities -/

theorem itemVec_two_twins_left :
    itemVec [⟨"u1", 1, 5⟩, ⟨"u1", 2, 5⟩] 1 = [5] := by
  have husers : userIds [⟨"u1", 1, 5⟩, ⟨"u1", 2, 5⟩] = ["u1"] := by decide
  norm_num [itemVec, husers, cellFilled, cellMean, cellRatings]

theorem itemVec_two_twins_right :
    itemVec [⟨"u1", 1, 5⟩, ⟨"u1", 2, 5⟩] 2 = [5] := by
  have husers : userIds [⟨"u1", 1, 5⟩, ⟨"u1", 2, 5⟩] = ["u1"] := by decide
  norm_num [itemVec, husers, cellFilled, cellMean, cellRatings]

/-- C9 failing input: with two places whose rating columns coincide, every
similarity in the queried column ties, the pandas descending sort puts the
tied twin first and the queried place second, and the skip-first slice
returns the queried place itself. -/
theorem get_similar_items_includes_self :
    getSimilarItems [⟨"u1", 1, 5⟩, ⟨"u1", 2, 5⟩] 1 2 = [1] := by
  have hids : placeIds [⟨"u1", 1, 5⟩, ⟨"u1", 2, 5⟩] = [1, 2] := by decide
  have hsim : itemSim [⟨"u1", 1, 5⟩, ⟨"u1", 2, 5⟩] 2 1 =
      itemSim [⟨"u1", 1, 5⟩, ⟨"u1", 2, 5⟩] 1 1 := by
    unfold itemSim
    rw [itemVec_two_twins_left, itemVec_two_twins_right]
  unfold getSimilarItems
  rw [if_neg (by decide), if_neg (not_not_intro (by decide))]
  rw [hids]
  rw [show ([1, 2] : List Int).map
      (fun q => (q, itemSim [⟨"u1", 1, 5⟩, ⟨"u1", 2, 5⟩] q 1)) =
      [(1, itemSim [⟨"u1", 1, 5⟩, ⟨"u1", 2, 5⟩] 1 1),
        (2, itemSim [⟨"u1", 1, 5⟩, ⟨"u1", 2, 5⟩] 2 1)] from rfl]
  rw [hsim]
  unfold pandasSortDesc
  rw [show List.insertionSort (fun a b : Int × ℝ => a.2 ≤ b.2)
      [(1, itemSim [⟨"u1", 1, 5⟩, ⟨"u1", 2, 5⟩] 1 1),
        (2, itemSim [⟨"u1", 1, 5⟩, ⟨"u1", 2, 5⟩] 1 1)] =
      List.orderedInsert (fun a b : Int × ℝ => a.2 ≤ b.2)
        (1, itemSim [⟨"u1", 1, 5⟩, ⟨"u1", 2, 5⟩] 1 1)
        [(2, itemSim [⟨"u1", 1, 5⟩, ⟨"u1", 2, 5⟩] 1 1)] from rfl]
  rw [List.orderedInsert_of_le (fun a b : Int × ℝ => a.2 ≤ b.2)
    (a := ((1, itemSim [⟨"u1", 1, 5⟩, ⟨"u1", 2, 5⟩] 1 1) : Int × ℝ))
    (b := ((2, itemSim [⟨"u1", 1, 5⟩, ⟨"u1", 2, 5⟩] 1 1) : Int × ℝ)) []
    (le_refl (itemSim [⟨"u1", 1, 5⟩, ⟨"u1", 2, 5⟩] 1 1))]
  rfl

/-! ## Stability of the popularity sort -/

/-- C5 counterexample: with two places tied at one rating each, the code
does not rank them in first-encountered order in the rating catalog as
the spec words it (at this input it produces the reverse). -/
theorem popular_tiebreak_differs :
    popularItems [⟨"a", 3, 5⟩, ⟨"b", 5, 4⟩] = [5, 3] ∧
    popularItemsSpecOrder [⟨"a", 3, 5⟩, ⟨"b", 5, 4⟩] = [3, 5] := by
  decide

/-- C5 amended: the popularity ranking is a permutation of the distinct
rated place ids ordered by raw rating count descending; the order among
tied counts is implementation-defined (in particular not first-encountered
catalog order). For a fixed catalog the ranking is a pure function of the
rating catalog alone, hence independent of any queried user and identical
across repeated calls. -/
theorem popular_rank_characterization (rs : List Review) :
    (popularItems rs).Perm (placeIds rs) ∧
    (popularItems rs).Pairwise (fun p q =>
      ratingCount rs q ≤ ratingCount rs p) := by
  by_cases hrs : rs = []
  · subst hrs
    exact ⟨List.Perm.refl _, List.Pairwise.nil⟩
  unfold popularItems
  rw [if_neg hrs]
  have hfst : ((placeIds rs).map (fun p => (p, ratingCount rs p))).map Prod.fst =
      placeIds rs := by
    rw [List.map_map]
    rw [show (Prod.fst ∘ fun p : Int => (p, ratingCount rs p)) = id from rfl,
      List.map_id]
  constructor
  · have h1 := (pandasSortDesc_perm Prod.snd
      ((placeIds rs).map (fun p => (p, ratingCount rs p)))).map Prod.fst
    rwa [hfst] at h1
  · have hmemty : ∀ x ∈ pandasSortDesc Prod.snd
        ((placeIds rs).map (fun p => (p, ratingCount rs p))),
        x.2 = ratingCount rs x.1 := by
      intro x hx
      have hx2 : x ∈ (placeIds rs).map (fun p => (p, ratingCount rs p)) :=
        mem_pandasSortDesc.mp hx
      rcases List.mem_map.mp hx2 with ⟨p, _, rfl⟩
      rfl
    rw [List.pairwise_map]
    refine (pandasSortDesc_pairwise Prod.snd
      ((placeIds rs).map (fun p => (p, ratingCount rs p)))).imp_of_mem ?_
    intro x y hmx hmy hr
    rw [hmemty x hmx, hmemty y hmy] at hr
    exact hr

/-! ## Hybrid recommender: stage decompositions -/

theorem fillLoop_spec (limit : Nat) :
    ∀ pops recs : List Int, ∃ l : List Int,
      fillLoop limit recs pops = recs ++ l ∧ l.Sublist pops ∧
        (∀ x ∈ l, x ∉ recs) ∧ l.Nodup := by
  intro pops
  induction pops with
  | nil =>
    intro recs
    exact ⟨[], by simp [fillLoop], List.nil_sublist _, by simp, List.nodup_nil⟩
  | cons p rest ih =>
    intro recs
    by_cases hmem : p ∈ recs
    · rcases ih recs with ⟨l, h1, h2, h3, h4⟩
      refine ⟨l, ?_, List.Sublist.cons p h2, h3, h4⟩
      rw [show fillLoop limit recs (p :: rest) = fillLoop limit recs rest from
        by rw [fillLoop, if_pos hmem]]
      exact h1
    · by_cases hlim : limit ≤ (recs ++ [p]).length
      · refine ⟨[p], ?_, List.Sublist.cons₂ p (List.nil_sublist rest), ?_, ?_⟩
        · rw [fillLoop, if_neg hmem, if_pos hlim]
        · intro x hx
          rw [List.mem_singleton.mp hx]
          exact hmem
        · exact List.nodup_singleton p
      · rcases ih (recs ++ [p]) with ⟨l, h1, h2, h3, h4⟩
        refine ⟨p :: l, ?_, List.Sublist.cons₂ p h2, ?_, ?_⟩
        · rw [show fillLoop limit recs (p :: rest) =
            fillLoop limit (recs ++ [p]) rest from
            by rw [fillLoop, if_neg hmem, if_neg hlim]]
          rw [h1, List.append_assoc]
          rfl
        · intro x hx
          rcases List.mem_cons.mp hx with rfl | hx
          · exact hmem
          · intro hcon
            exact h3 x hx (List.mem_append.mpr (Or.inl hcon))
        · refine List.nodup_cons.mpr ⟨?_, h4⟩
          intro hpl
          exact h3 p hpl (List.mem_append.mpr (Or.inr (List.mem_singleton.mpr rfl)))

theorem mem_popularItems {rs : List Review} {x : Int}
    (h : x ∈ popularItems rs) : x ∈ placeIds rs := by
  unfold popularItems at h
  by_cases hrs : rs = []
  · rw [if_pos hrs] at h
    exact absurd h (List.not_mem_nil x)
  · rw [if_neg hrs] at h
    rcases List.mem_map.mp h with ⟨pr, hpr, rfl⟩
    rcases List.mem_map.mp (mem_pandasSortDesc.mp hpr) with ⟨p, hp, rfl⟩
    exact hp

theorem prefMatchIds_subset (prefs : List String) (ps : List Place) :
    ∀ i ∈ prefMatchIds prefs ps, i ∈ ps.map (·.id) := by
  intro i hi
  rcases List.mem_map.mp hi with ⟨pl, hpl, rfl⟩
  exact List.mem_map_of_mem _ ((List.filter_sublist ps).subset hpl)

theorem prefMatchIds_nodup {prefs : List String} {ps : List Place}
    (h : (ps.map (·.id)).Nodup) : (prefMatchIds prefs ps).Nodup := by
  unfold prefMatchIds
  exact List.Nodup.sublist (List.Sublist.map (·.id) (List.filter_sublist ps)) h

theorem hybridStage2_cases (ps : List Place) (prefs : List String)
    (recs1 : List Int) (limit : Nat) :
    ∃ s2 : List Int, hybridStage2 ps prefs recs1 limit = recs1 ++ s2 ∧
      s2.Sublist (prefMatchIds prefs ps) ∧ (∀ x ∈ s2, x ∉ recs1) := by
  unfold hybridStage2
  by_cases hg : recs1.length < limit ∧ prefs ≠ []
  · rw [if_pos hg]
    by_cases hps : ps = []
    · rw [if_pos hps]
      exact ⟨[], by simp, List.nil_sublist _, by simp⟩
    · rw [if_neg hps]
      refine ⟨(prefMatchIds prefs ps).filter (fun i => i ∉ recs1), rfl,
        List.filter_sublist _, ?_⟩
      intro x hx
      exact of_decide_eq_true (List.mem_filter.mp hx).2
  · rw [if_neg hg]
    exact ⟨[], by simp, List.nil_sublist _, by simp⟩

theorem hybridStage3_cases (rs : List Review) (recs : List Int) (limit : Nat) :
    ∃ s3 : List Int, hybridStage3 rs recs limit = recs ++ s3 ∧
      s3.Sublist (popularItems rs) ∧ (∀ x ∈ s3, x ∉ recs) ∧ s3.Nodup := by
  unfold hybridStage3
  by_cases h : recs.length < limit
  · rw [if_pos h]
    exact fillLoop_spec limit (popularItems rs) recs
  · rw [if_neg h]
    exact ⟨[], by simp, List.nil_sublist _, by simp, List.nodup_nil⟩

/-- C4: the hybrid output never exceeds `limit`, contains no duplicate
identifiers (for a catalog with unique place ids, per the data model), and
is a prefix-truncation of the three stage outputs accumulated in order
(collaborative, then preference matches in catalog order, then popularity
fill), never re-sorted across stages. -/
theorem hybrid_output_bounded_nodup_ordered (ps : List Place)
    (rs : List Review) (u : String) (prefs : List String) (limit : Nat)
    (hids : (ps.map (·.id)).Nodup) :
    (hybridRecommend ps rs u prefs limit).length ≤ limit ∧
    (hybridRecommend ps rs u prefs limit).Nodup ∧
    ∃ s2 s3 : List Int,
      hybridRecommend ps rs u prefs limit =
        (hybridStage1 rs u limit ++ s2 ++ s3).take limit ∧
      s2.Sublist (prefMatchIds prefs ps) ∧ s3.Sublist (popularItems rs) := by
  rcases hybridStage2_cases ps prefs (hybridStage1 rs u limit) limit with
    ⟨s2, e2, sub2, fresh2⟩
  rcases hybridStage3_cases rs
    (hybridStage2 ps prefs (hybridStage1 rs u limit) limit) limit with
    ⟨s3, e3, sub3, fresh3, nd3⟩
  have hout : hybridRecommend ps rs u prefs limit =
      (hybridStage1 rs u limit ++ s2 ++ s3).take limit := by
    unfold hybridRecommend
    rw [e3, e2]
  have hnd12 : (hybridStage1 rs u limit ++ s2).Nodup := by
    refine List.Nodup.append (recommendForUser_nodup rs u limit)
      (List.Nodup.sublist sub2 (prefMatchIds_nodup hids)) ?_
    intro a ha has2
    exact fresh2 a has2 ha
  have hnd : ((hybridStage1 rs u limit ++ s2) ++ s3).Nodup := by
    refine List.Nodup.append hnd12 nd3 ?_
    intro a ha has3
    refine fresh3 a has3 ?_
    rw [e2]
    exact ha
  refine ⟨?_, ?_, s2, s3, hout, sub2, sub3⟩
  · rw [hout]
    exact List.length_take_le limit _
  · rw [hout]
    exact List.Nodup.sublist (List.take_sublist limit _) hnd

/-- Witness for C4 at a concrete catalog with a unique place id. -/
theorem hybrid_output_bounded_nodup_ordered_witness :
    (([(⟨1, "x", none, none, none⟩ : Place)].map (·.id)).Nodup) ∧
    (hybridRecommend [⟨1, "x", none, none, none⟩] [] "u" [] 5).length ≤ 5 := by
  have h1 : (([(⟨1, "x", none, none, none⟩ : Place)].map (·.id)).Nodup) := by
    decide
  exact ⟨h1,
    (hybrid_output_bounded_nodup_ordered [⟨1, "x", none, none, none⟩] [] "u"
      [] 5 h1).1⟩

/-! ## The preference predicate -/

theorem startsWith_iff : ∀ n h : List Char,
    startsWith n h = true ↔ ∃ t, h = n ++ t := by
  intro n
  induction n with
  | nil =>
    intro h
    constructor
    · intro _
      exact ⟨h, rfl⟩
    · intro _
      rfl
  | cons a as ih =>
    intro h
    cases h with
    | nil =>
      constructor
      · intro hfalse
        exact absurd hfalse (by simp [startsWith])
      · rintro ⟨t, ht⟩
        cases ht
    | cons b bs =>
      constructor
      · intro hs
        have h1 : a = b ∧ startsWith as bs = true := by
          simpa [startsWith] using hs
        rcases (ih bs).mp h1.2 with ⟨t, rfl⟩
        refine ⟨t, ?_⟩
        rw [← h1.1]
        rfl
      · rintro ⟨t, ht⟩
        injection ht with h1 h2
        subst h1
        have h3 : startsWith as bs = true := (ih bs).mpr ⟨t, h2⟩
        simp [startsWith, h3]

theorem containsSub_iff : ∀ n h : List Char,
    containsSub n h = true ↔ isSubstring n h := by
  intro n h
  induction h with
  | nil =>
    rw [show containsSub n [] = decide (n = []) from rfl]
    constructor
    · intro hd
      rw [of_decide_eq_true hd]
      exact ⟨[], [], rfl⟩
    · rintro ⟨s, t, hst⟩
      rcases List.append_eq_nil.mp (List.append_eq_nil.mp hst.symm).1 with ⟨_, h2⟩
      rw [h2]
      rfl
  | cons c rest ih =>
    rw [show containsSub n (c :: rest) =
      (startsWith n (c :: rest) || containsSub n rest) from rfl]
    rw [Bool.or_eq_true, startsWith_iff, ih]
    constructor
    · rintro (⟨t, ht⟩ | ⟨s, t, hst⟩)
      · exact ⟨[], t, by simpa using ht⟩
      · refine ⟨c :: s, t, ?_⟩
        rw [hst]
        rfl
    · rintro ⟨s, t, hst⟩
      cases s with
      | nil =>
        left
        exact ⟨t, by simpa using hst⟩
      | cons a s2 =>
        right
        injection hst with h1 h2
        exact ⟨s2, t, h2⟩

theorem placeHasAnyPref_iff_spec {prefs : List String} {pl : Place}
    (ht : pl.type.isSome) (hg : pl.tags.isSome) :
    placeHasAnyPref prefs pl = true ↔ specPrefMatch prefs pl := by
  rcases Option.isSome_iff_exists.mp ht with ⟨st, hst⟩
  rcases Option.isSome_iff_exists.mp hg with ⟨sg, hsg⟩
  unfold placeHasAnyPref specPrefMatch
  rw [hst, hsg]
  simp only [strOfField, Option.getD_some, List.any_eq_true, Bool.or_eq_true,
    containsSub_iff]

/-- C6: the preference stage of the hybrid recommender runs exactly when
the collaborative stage fell short of `limit` and preferences are
non-empty; it then appends, in catalog order and skipping already
accumulated ids, exactly the places some preference keyword matches
case-insensitively as a substring of their type or tags (fields present,
per the documented input interface). -/
theorem hybrid_pref_stage_gating (ps : List Place) (rs : List Review)
    (u : String) (prefs : List String) (limit : Nat)
    (hf : ∀ pl ∈ ps, pl.type.isSome ∧ pl.tags.isSome) :
    (hybridRecommend ps rs u prefs limit =
      (hybridStage3 rs (hybridStage2 ps prefs (hybridStage1 rs u limit) limit)
        limit).take limit) ∧
    (¬((hybridStage1 rs u limit).length < limit ∧ prefs ≠ []) →
      hybridStage2 ps prefs (hybridStage1 rs u limit) limit =
        hybridStage1 rs u limit) ∧
    (((hybridStage1 rs u limit).length < limit ∧ prefs ≠ []) →
      hybridStage2 ps prefs (hybridStage1 rs u limit) limit =
        hybridStage1 rs u limit ++
          ((ps.filter (placeHasAnyPref prefs)).map (·.id)).filter
            (fun i => i ∉ hybridStage1 rs u limit)) ∧
    (∀ pl ∈ ps, placeHasAnyPref prefs pl = true ↔ specPrefMatch prefs pl) := by
  refine ⟨rfl, ?_, ?_,
    fun pl hpl => placeHasAnyPref_iff_spec (hf pl hpl).1 (hf pl hpl).2⟩
  · intro hg
    unfold hybridStage2
    rw [if_neg hg]
  · intro hg
    unfold hybridStage2
    rw [if_pos hg]
    by_cases hps : ps = []
    · rw [if_pos hps]
      subst hps
      simp
    · rw [if_neg hps]
      rfl

/-- Witness for C6: an empty rating catalog, one cafe place and the
preference list containing cafe. -/
theorem hybrid_pref_stage_gating_witness :
    (∀ pl ∈ [(⟨1, "x", some "Cafe", some "", some ""⟩ : Place)],
      pl.type.isSome ∧ pl.tags.isSome) ∧
    ((hybridStage1 [] "u" 3).length < 3 ∧ (["cafe"] : List String) ≠ []) ∧
    hybridStage2 [⟨1, "x", some "Cafe", some "", some ""⟩] ["cafe"]
        (hybridStage1 [] "u" 3) 3 =
      hybridStage1 [] "u" 3 ++
        (([(⟨1, "x", some "Cafe", some "", some ""⟩ : Place)].filter
          (placeHasAnyPref ["cafe"])).map (·.id)).filter
            (fun i => i ∉ hybridStage1 [] "u" 3) := by
  have h1 : ∀ pl ∈ [(⟨1, "x", some "Cafe", some "", some ""⟩ : Place)],
      pl.type.isSome ∧ pl.tags.isSome := by decide
  have h0 : hybridStage1 [] "u" 3 = [] := rfl
  have h2 : (hybridStage1 [] "u" 3).length < 3 ∧ (["cafe"] : List String) ≠ [] := by
    rw [h0]
    exact ⟨by decide, by decide⟩
  exact ⟨h1, h2,
    (hybrid_pref_stage_gating [⟨1, "x", some "Cafe", some "", some ""⟩] []
      "u" ["cafe"] 3 h1).2.2.1 h2⟩

/-- C10: every identifier the hybrid recommender returns occurs in the
rating catalog or in the place catalog; and the concrete instance shows
that with a rating for place 7 and an empty place catalog the output is
exactly the identifier 7, which has no place record. -/
theorem hybrid_ids_come_from_inputs :
    (∀ (ps : List Place) (rs : List Review) (u : String)
        (prefs : List String) (limit : Nat),
      ∀ i ∈ hybridRecommend ps rs u prefs limit,
        i ∈ rs.map (·.place_id) ∨ i ∈ ps.map (·.id)) ∧
    hybridRecommend [] [⟨"u1", 7, 5⟩] "u2" [] 5 = [7] ∧
    (7 : Int) ∉ (([] : List Place)).map (·.id) := by
  refine ⟨?_, rfl, by decide⟩
  intro ps rs u prefs limit i hi
  rcases hybridStage2_cases ps prefs (hybridStage1 rs u limit) limit with
    ⟨s2, e2, sub2, _⟩
  rcases hybridStage3_cases rs
    (hybridStage2 ps prefs (hybridStage1 rs u limit) limit) limit with
    ⟨s3, e3, sub3, _, _⟩
  have hi2 : i ∈ (hybridStage1 rs u limit ++ s2) ++ s3 := by
    have := (List.take_sublist limit _).subset hi
    rw [show hybridRecommend ps rs u prefs limit =
      ((hybridStage1 rs u limit ++ s2) ++ s3).take limit from by
        unfold hybridRecommend
        rw [e3, e2]] at hi
    exact (List.take_sublist limit _).subset hi
  rcases List.mem_append.mp hi2 with hi3 | hi3
  · rcases List.mem_append.mp hi3 with hi4 | hi4
    · left
      exact mem_sortedKeys.mp (recommendForUser_subset rs u limit i hi4)
    · right
      exact prefMatchIds_subset prefs ps i (sub2.subset hi4)
  · left
    exact mem_sortedKeys.mp (mem_popularItems (sub3.subset hi3))

/-! ## Content recommender: construction and guards -/

theorem soup_fillPlace (pl : Place) : soup (fillPlace pl) = soup pl := by
  rcases pl with ⟨i, n, t, g, d⟩
  cases t <;> cases g <;> cases d <;> rfl

/-- C7 counterexample: a one-place catalog whose optional fields are all
missing and whose name yields no token makes the TF-IDF fit raise the
empty-vocabulary error, so construction is not raise-free on every such
catalog. -/
theorem content_prepare_fails_empty_vocab :
    contentPrepare ["the"] [⟨1, "a", none, none, none⟩] =
      .error "empty vocabulary" :=
  rfl

/-- C7 amended: missing or empty optional text fields contribute the empty
string (construction is invariant under replacing them by empty strings)
and never themselves cause a failure; construction succeeds on the empty
catalog and whenever the fitted vocabulary is non-empty, and fails only
with the empty-vocabulary error. -/
theorem content_prepare_fill_invariant (stop : List String) (ps : List Place) :
    contentPrepare stop ps = contentPrepare stop (ps.map fillPlace) ∧
    (ps = [] → contentPrepare stop ps = .ok ()) ∧
    (vocab stop ps ≠ [] → contentPrepare stop ps = .ok ()) := by
  have hcorp : corpus stop (ps.map fillPlace) = corpus stop ps := by
    unfold corpus docTokens
    rw [List.map_map]
    rw [show ((fun pl => (tokenize (soup pl)).filter (fun t => t ∉ stop)) ∘
        fillPlace) = fun pl => (tokenize (soup pl)).filter (fun t => t ∉ stop)
      from funext fun pl => by simp [Function.comp, soup_fillPlace]]
  have hvocab : vocab stop (ps.map fillPlace) = vocab stop ps := by
    unfold vocab
    rw [hcorp]
  refine ⟨?_, ?_, ?_⟩
  · unfold contentPrepare
    rw [hvocab]
    by_cases hps : ps = []
    · rw [if_pos hps, if_pos (by rw [hps]; rfl)]
    · rw [if_neg hps,
        if_neg (show ¬(ps.map fillPlace = []) from by simpa using hps)]
  · intro hps
    unfold contentPrepare
    rw [if_pos hps]
  · intro hv
    unfold contentPrepare
    by_cases hps : ps = []
    · rw [if_pos hps]
    · rw [if_neg hps, if_neg hv]

/-- Witness for C7 at a catalog with all optional fields missing but a
tokenizable name. -/
theorem content_prepare_fill_invariant_witness :
    vocab [] [⟨1, "ab", none, none, none⟩] ≠ [] ∧
    contentPrepare [] [⟨1, "ab", none, none, none⟩] = .ok () :=
  ⟨by decide,
    (content_prepare_fill_invariant [] [⟨1, "ab", none, none, none⟩]).2.2
      (by decide)⟩

/-- C8 counterexample: querying an unknown id on a catalog whose single
document has no tokens does not return an empty sequence; construction
already raised the empty-vocabulary error. -/
theorem content_recommend_raises_for_unknown_id :
    contentRecommend ["the"] [⟨1, "a", none, none, none⟩] 2 3 =
      .error "empty vocabulary" :=
  rfl

/-- C8 amended: recommend returns an empty sequence without raising on the
empty catalog, and on an unknown id whenever construction succeeded
(non-empty vocabulary); with an empty vocabulary construction itself
raises before recommend can run. -/
theorem content_recommend_guards (stop : List String) (ps : List Place)
    (pid : Int) (limit : Nat) :
    (ps = [] → contentRecommend stop ps pid limit = .ok []) ∧
    (vocab stop ps ≠ [] → pid ∉ ps.map (·.id) →
      contentRecommend stop ps pid limit = .ok []) := by
  constructor
  · intro hps
    unfold contentRecommend
    rw [show contentPrepare stop ps = .ok () from
      (content_prepare_fill_invariant stop ps).2.1 hps]
    rw [afterPrepare_ok, if_pos (Or.inl hps)]
  · intro hv hpid
    unfold contentRecommend
    rw [show contentPrepare stop ps = .ok () from
      (content_prepare_fill_invariant stop ps).2.2 hv]
    rw [afterPrepare_ok, if_pos (Or.inr hpid)]

/-- Witness for C8 at a non-empty catalog and an unknown id. -/
theorem content_recommend_guards_witness :
    vocab [] [⟨1, "ab", none, none, none⟩] ≠ [] ∧
    (2 : Int) ∉ [(⟨1, "ab", none, none, none⟩ : Place)].map (·.id) ∧
    contentRecommend [] [⟨1, "ab", none, none, none⟩] 2 3 = .ok [] :=
  ⟨by decide, by decide,
    (content_recommend_guards [] [⟨1, "ab", none, none, none⟩] 2 3).2
      (by decide) (by decide)⟩

/-! ## Content recommender: self-inclusion on tied similarities -/

/-- C1 failing input: two places with identical metadata give identical
TF-IDF rows, the queried row ties everywhere, the stable descending sort
keeps the earlier index first, and dropping only the first entry returns
the queried place itself. -/
theorem content_recommend_includes_self (stop : List String)
    (h1 : "aa" ∉ stop) :
    contentRecommend stop
      [⟨1, "aa", none, none, none⟩, ⟨2, "aa", none, none, none⟩] 2 1 =
      .ok [2] := by
  have hdt1 : docTokens stop ⟨1, "aa", none, none, none⟩ = ["aa"] := by
    unfold docTokens
    rw [show tokenize (soup (⟨1, "aa", none, none, none⟩ : Place)) = ["aa"]
      from by decide]
    simp [h1]
  have hdt2 : docTokens stop ⟨2, "aa", none, none, none⟩ = ["aa"] := by
    unfold docTokens
    rw [show tokenize (soup (⟨2, "aa", none, none, none⟩ : Place)) = ["aa"]
      from by decide]
    simp [h1]
  have hcorp : corpus stop
      [⟨1, "aa", none, none, none⟩, ⟨2, "aa", none, none, none⟩] =
      [["aa"], ["aa"]] := by
    unfold corpus
    rw [List.map_cons, List.map_cons, List.map_nil, hdt1, hdt2]
  have hvocab : vocab stop
      [⟨1, "aa", none, none, none⟩, ⟨2, "aa", none, none, none⟩] = ["aa"] := by
    unfold vocab
    rw [hcorp]
    decide
  have hprep : contentPrepare stop
      [⟨1, "aa", none, none, none⟩, ⟨2, "aa", none, none, none⟩] = .ok () := by
    unfold contentPrepare
    rw [if_neg (by decide), if_neg (by rw [hvocab]; decide)]
  have hsim : contentSim stop
      [⟨1, "aa", none, none, none⟩, ⟨2, "aa", none, none, none⟩] 1 0 =
      contentSim stop
        [⟨1, "aa", none, none, none⟩, ⟨2, "aa", none, none, none⟩] 1 1 := by
    unfold contentSim
    rw [hcorp]
    rfl
  unfold contentRecommend
  rw [hprep, afterPrepare_ok]
  rw [if_neg (by decide :
    ¬([(⟨1, "aa", none, none, none⟩ : Place), ⟨2, "aa", none, none, none⟩] = [] ∨
      (2 : Int) ∉ [(⟨1, "aa", none, none, none⟩ : Place),
        ⟨2, "aa", none, none, none⟩].map (·.id)))]
  rw [show (([(⟨1, "aa", none, none, none⟩ : Place),
      ⟨2, "aa", none, none, none⟩].map (·.id)).indexOf (2 : Int)) = 1 from
    by decide]
  rw [show (List.range
      ([(⟨1, "aa", none, none, none⟩ : Place),
        ⟨2, "aa", none, none, none⟩]).length).map
      (fun j => (j, contentSim stop
        [⟨1, "aa", none, none, none⟩, ⟨2, "aa", none, none, none⟩] 1 j)) =
      [(0, contentSim stop
        [⟨1, "aa", none, none, none⟩, ⟨2, "aa", none, none, none⟩] 1 0),
       (1, contentSim stop
        [⟨1, "aa", none, none, none⟩, ⟨2, "aa", none, none, none⟩] 1 1)]
    from rfl]
  rw [hsim]
  unfold pySortDesc
  rw [show List.insertionSort (fun a b : Nat × ℝ => Prod.snd b ≤ Prod.snd a)
      [(0, contentSim stop
        [⟨1, "aa", none, none, none⟩, ⟨2, "aa", none, none, none⟩] 1 1),
       (1, contentSim stop
        [⟨1, "aa", none, none, none⟩, ⟨2, "aa", none, none, none⟩] 1 1)] =
      List.orderedInsert (fun a b : Nat × ℝ => Prod.snd b ≤ Prod.snd a)
        (0, contentSim stop
          [⟨1, "aa", none, none, none⟩, ⟨2, "aa", none, none, none⟩] 1 1)
        [(1, contentSim stop
          [⟨1, "aa", none, none, none⟩, ⟨2, "aa", none, none, none⟩] 1 1)]
    from rfl]
  rw [List.orderedInsert_of_le (fun a b : Nat × ℝ => Prod.snd b ≤ Prod.snd a)
    (a := ((0, contentSim stop
      [⟨1, "aa", none, none, none⟩, ⟨2, "aa", none, none, none⟩] 1 1) : Nat × ℝ))
    (b := ((1, contentSim stop
      [⟨1, "aa", none, none, none⟩, ⟨2, "aa", none, none, none⟩] 1 1) : Nat × ℝ))
    []
    (le_refl (contentSim stop
      [⟨1, "aa", none, none, none⟩, ⟨2, "aa", none, none, none⟩] 1 1))]
  rfl

/-- Witness for the C1 failing-input theorem with a concrete stop list. -/
theorem content_recommend_includes_self_witness :
    "aa" ∉ (["the"] : List String) ∧
    contentRecommend ["the"]
      [⟨1, "aa", none, none, none⟩, ⟨2, "aa", none, none, none⟩] 2 1 =
      .ok [2] :=
  ⟨by decide, content_recommend_includes_self ["the"] (by decide)⟩

end Critique
